import Mathlib

/-!
Shallow embedding of `manage-venv.py`, a script that aggregates
`requirements.txt` manifests, provisions a virtual environment, pins
unpinned dependency lines to installed versions, and prompts for upgrades.

Lines and strings are modelled as `List Char`; the Python string
primitives used by the script (`strip`, `split`, substring tests, the
package-name pattern) are embedded as executable functions, and the
stages that touch the file system or spawn subprocesses are modelled as
pure functions over explicit state (manifest contents as
`Option (List (List Char))`, subprocess outcomes as an inductive type,
fatal termination as `Except Nat`).
-/

/-- Characters treated as whitespace by Python's `str.strip`, `str.split()`
and the pattern class of the script's package name pattern (ASCII range). -/
def pyWhitespace (c : Char) : Bool :=
  c == ' ' || c == '\t' || c == '\n' || c == '\r' || c == '\x0b' || c == '\x0c'

/-- Python `str.strip()`: drop leading and trailing whitespace. -/
def pyStrip (s : List Char) : List Char :=
  ((s.dropWhile pyWhitespace).reverse.dropWhile pyWhitespace).reverse

/-- Python `"==" in s`: the two-character substring `==` occurs in `s`. -/
def hasEqEq : List Char → Bool
  | [] => false
  | [_] => false
  | a :: b :: tl => (a == '=' && b == '=') || hasEqEq (b :: tl)

/-- Characters matched by `[a-zA-Z0-9\-_]` in `PACKAGE_REGEX`. -/
def isNameChar (c : Char) : Bool :=
  ('a' ≤ c && c ≤ 'z') || ('A' ≤ c && c ≤ 'Z') || ('0' ≤ c && c ≤ '9') ||
    c == '-' || c == '_'

/-- Characters matched by `[a-zA-Z0-9\-_,]` (the extras class) in
`PACKAGE_REGEX`. -/
def isExtrasChar (c : Char) : Bool := isNameChar c || c == ','

/-- Embedding of `PACKAGE_REGEX.match(line)` for the pattern
`^\s*([a-zA-Z0-9\-_]+(?:\[[a-zA-Z0-9\-_,]+\])?)\s*`: returns `group(1)`
when the line matches, i.e. the maximal run of name characters after
leading whitespace, extended by a well-formed bracketed extras suffix
when one immediately follows. -/
def packageRegexMatch (line : List Char) : Option (List Char) :=
  let rest := line.dropWhile pyWhitespace
  let name := rest.takeWhile isNameChar
  if name = [] then none
  else
    match rest.dropWhile isNameChar with
    | '[' :: tl =>
      let extras := tl.takeWhile isExtrasChar
      if extras = [] then some name
      else
        match tl.dropWhile isExtrasChar with
        | ']' :: _ => some (name ++ '[' :: (extras ++ [']']))
        | _ => some name
    | _ => some name

/-- Embedding of `match.group(1).lower().split('[')[0]`: lowercase the
captured group, then keep the part before the first `[`. -/
def normalizeName (g : List Char) : List Char :=
  (g.map Char.toLower).takeWhile (fun c => !(c == '['))

/-- Python `line.split('#', 1)[1]`: the text after the first `#`
(meaningful only when `#` occurs in the line). -/
def afterHash : List Char → List Char
  | [] => []
  | c :: tl => if c == '#' then tl else afterHash tl

/-- Python `s.split("==")[0]`: the text before the first occurrence of
`==` (the whole string when `==` does not occur). -/
def beforeEqEq : List Char → List Char
  | [] => []
  | [c] => [c]
  | a :: b :: tl =>
    if a == '=' && b == '=' then [] else a :: beforeEqEq (b :: tl)

/-- The installed-package map built by `pin_dependencies`: lowercased
package name to full `name==version` specifier. Association list with
first-match lookup. -/
abbrev PkgMap := List (List Char × List Char)

/-- Python dict lookup `installed_packages[package_name]` (with
`package_name in installed_packages` as the `isSome` test). -/
def lookupPkg (m : PkgMap) (k : List Char) : Option (List Char) :=
  match m with
  | [] => none
  | (k₀, v₀) :: tl => if k₀ = k then some v₀ else lookupPkg tl k

/-- Python `"x".split("\n")`: split on every newline, keeping empty
pieces; the empty string yields `[""]`. -/
def pySplitOnNl : List Char → List (List Char)
  | [] => [[]]
  | c :: tl =>
    if c == '\n' then [] :: pySplitOnNl tl
    else
      match pySplitOnNl tl with
      | h :: t => (c :: h) :: t
      | [] => [[c]]

/-- Embedding of the dict comprehension in `pin_dependencies` building
`installed_packages` from `pip freeze` output: for each line of
`stdout.strip().split("\n")` whose stripped form contains `==` and has a
nonempty part before `==`, map the lowercased name to the full stripped
specifier. Later lines override earlier ones (Python dict assignment), so
the association list is reversed for first-match lookup. -/
def installedFromFreeze (stdout : List Char) : PkgMap :=
  ((pySplitOnNl (pyStrip stdout)).filterMap fun l =>
    let fullSpec := pyStrip l
    let name := beforeEqEq fullSpec
    if hasEqEq fullSpec && !(name = []) then
      some (name.map Char.toLower, fullSpec)
    else none).reverse

/-- Embedding of the per-line body of the rewrite loop in
`pin_dependencies` (lines 123-148 of the script): blank lines and
full-line comments are kept; otherwise a line matching `PACKAGE_REGEX`
and not containing `==` whose normalized name is an installed key is
replaced by the pinned specifier, reattaching any inline comment
(stripped) after two spaces and `# `; every other line is kept. -/
def pinLine (installed : PkgMap) (line : List Char) : List Char :=
  if pyStrip line = [] then line
  else if (pyStrip line).headD ' ' == '#' then line
  else
    match packageRegexMatch line with
    | none => line
    | some g =>
      if hasEqEq line then line
      else
        match lookupPkg installed (normalizeName g) with
        | none => line
        | some v =>
          if line.contains '#' then
            v ++ ([' ', ' ', '#', ' '] ++ pyStrip (afterHash line) ++ ['\n'])
          else v ++ ['\n']

/-- Embedding of the `needs_pinning` scan (lines 101-106): some line
matches `PACKAGE_REGEX` and does not contain `==`. -/
def needs_pinning (lines : List (List Char)) : Bool :=
  lines.any fun l => (packageRegexMatch l).isSome && !hasEqEq l

/-- The rewrite loop of `pin_dependencies` applied to every line. -/
def pinLinesCore (installed : PkgMap) (lines : List (List Char)) : List (List Char) :=
  lines.map (pinLine installed)

/-- Content transformation performed by `pin_dependencies` on the manifest
lines, for a given installed-package map: when no line needs pinning the
function returns early and the manifest is untouched; otherwise every
line goes through the rewrite loop. -/
def pin_dependencies_rewrite (installed : PkgMap) (lines : List (List Char)) :
    List (List Char) :=
  if needs_pinning lines then pinLinesCore installed lines else lines

/-- Content transformation performed by a full `pin_dependencies` run in
an environment whose `pip freeze` output is `freezeStdout`. -/
def pin_dependencies_run (freezeStdout : List Char) (lines : List (List Char)) :
    List (List Char) :=
  pin_dependencies_rewrite (installedFromFreeze freezeStdout) lines

/-- Helper for `pySplitWs`: accumulates the current word reversed. -/
def pySplitWsAux : List Char → List Char → List (List Char)
  | [], acc => if acc = [] then [] else [acc.reverse]
  | c :: tl, acc =>
    if pyWhitespace c then
      if acc = [] then pySplitWsAux tl [] else acc.reverse :: pySplitWsAux tl []
    else pySplitWsAux tl (c :: acc)

/-- Python `str.split()` with no argument: split on runs of whitespace,
discarding empty pieces. -/
def pySplitWs (s : List Char) : List (List Char) := pySplitWsAux s []

/-- Embedding of the package-name collection in `check_for_upgrades`
(lines 171-177): the names captured by `PACKAGE_REGEX` on each manifest
line, lowercased with extras stripped. Built as a list; only membership
is ever used, matching the Python set. -/
def requirementsPackages (lines : List (List Char)) : List (List Char) :=
  lines.filterMap fun l => (packageRegexMatch l).map normalizeName

/-- Embedding of the row unpacking `package, current_v, latest_v, _ =
line.split()` in `check_for_upgrades`: `some` of the first three fields
when the row whitespace-splits into exactly four fields, `none`
otherwise (the `ValueError` path). -/
def parseOutdatedRow (row : List Char) :
    Option (List Char × List Char × List Char) :=
  match pySplitWs row with
  | [p, c, l, _] => some (p, c, l)
  | _ => none

/-- The filtering loop of `check_for_upgrades` (lines 197-206): keep, in
row order, the parsed rows whose lowercased name is a manifest package
name; rows that fail to parse are skipped. -/
def targetedUpgradesLoop (reqs : List (List Char)) :
    List (List Char) → List (List Char × List Char × List Char)
  | [] => []
  | row :: tl =>
    match parseOutdatedRow row with
    | some (p, c, l) =>
      if reqs.contains (p.map Char.toLower) then
        (p, c, l) :: targetedUpgradesLoop reqs tl
      else targetedUpgradesLoop reqs tl
    | none => targetedUpgradesLoop reqs tl

/-- The upgrade-candidate list computed by `check_for_upgrades` from the
`pip list --outdated` stdout and the manifest lines: strip the stdout,
split on newlines, require more than two lines (the two-line header plus
data), then run the filtering loop on the rows after the header. -/
def check_for_upgrades_targets (stdout : List Char)
    (reqLines : List (List Char)) : List (List Char × List Char × List Char) :=
  let outdatedLines := pySplitOnNl (pyStrip stdout)
  if outdatedLines.length ≤ 2 then []
  else targetedUpgradesLoop (requirementsPackages reqLines) (outdatedLines.drop 2)

/-- Embedding of `input(...).lower().strip()` with the `EOFError` handler
(lines 216-219): end-of-stream yields `"n"`, otherwise the lowercased
stripped answer. -/
def answerFromInput : Option (List Char) → List Char
  | none => ['n']
  | some s => pyStrip (s.map Char.toLower)

/-- Outcome of one external command for `run_command`: the executable is
absent from the path, the process exits non-zero, or it succeeds with
captured stdout. -/
inductive CmdOutcome where
  | notFound
  | exitNonZero (code : Int)
  | ok (stdout : List Char)
deriving DecidableEq

/-- Embedding of `run_command` (lines 31-52): a missing executable
(`FileNotFoundError`) or a non-zero exit (`CalledProcessError`) calls
`sys_exit(1)`, modelled as `Except.error 1`; success returns the
captured stdout. -/
def run_command_model : CmdOutcome → Except Nat (List Char)
  | .notFound => .error 1
  | .exitNonZero _ => .error 1
  | .ok stdout => .ok stdout

/-- Observable effects of one `check_for_upgrades` run: whether the
confirmation prompt was reached, and the package-name argument lists of
the `pip install --upgrade` invocations that were made. -/
structure UpgradeOutcome where
  prompted : Bool
  upgradeCalls : List (List (List Char))
deriving DecidableEq

/-- Embedding of `check_for_upgrades` (lines 157-228) over explicit
state: the manifest contents (`none` when the file is missing, which
prints a warning and returns), the outcome of the `pip list --outdated`
invocation (whose failure terminates the run through `run_command`), and
the standard-input line offered to the prompt (`none` for end-of-stream).
Returns the stage's observable effects, or the exit status on fatal
termination. -/
def check_for_upgrades_model (manifest : Option (List (List Char)))
    (listOutdated : CmdOutcome) (input : Option (List Char)) :
    Except Nat UpgradeOutcome :=
  match manifest with
  | none => .ok ⟨false, []⟩
  | some reqLines =>
    match run_command_model listOutdated with
    | .error code => .error code
    | .ok stdout =>
      let targeted := check_for_upgrades_targets stdout reqLines
      if targeted = [] then .ok ⟨false, []⟩
      else if answerFromInput input = ['y'] then
        .ok ⟨true, [targeted.map fun t => t.1]⟩
      else .ok ⟨true, []⟩

/-- Embedding of `pin_dependencies` (lines 86-154) over explicit state:
the manifest contents (`none` when the file is missing, which prints a
warning and returns with nothing modified) and the outcome of the
`pip freeze` invocation. Returns the manifest state after the stage, or
the exit status on fatal termination. -/
def pin_dependencies_model (manifest : Option (List (List Char)))
    (freeze : CmdOutcome) : Except Nat (Option (List (List Char))) :=
  match manifest with
  | none => .ok none
  | some lines =>
    if needs_pinning lines then
      match run_command_model freeze with
      | .error code => .error code
      | .ok stdout =>
        .ok (some (pinLinesCore (installedFromFreeze stdout) lines))
    else .ok (some lines)

/-- Python string `<`: lexicographic comparison of code points. -/
def charListLt : List Char → List Char → Bool
  | _, [] => false
  | [], _ :: _ => true
  | a :: s, b :: t =>
    if a.toNat < b.toNat then true
    else if b.toNat < a.toNat then false
    else charListLt s t

/-- Python `str` comparison on path components. -/
def strLt (a b : String) : Bool := charListLt a.data b.data

/-- Lexicographic comparison of paths as component lists, matching the
ordering `sorted` uses on `pathlib` paths (tuple comparison of parts,
strings compared by code point). -/
def pathLe : List String → List String → Bool
  | [], _ => true
  | _ :: _, [] => false
  | a :: p, b :: q =>
    if strLt a b then true else if strLt b a then false else pathLe p q

/-- A discovered sub-manifest: its path (as components) and its contents. -/
abbrev FoundFile := List String × List Char

/-- The path ordering on discovered files, as a relation for sorting. -/
def foundFileLe (a b : FoundFile) : Prop := pathLe a.1 b.1 = true

instance : DecidableRel foundFileLe := fun a b =>
  decEq (pathLe a.1 b.1) true

/-- State of the file system as seen by the aggregation stage and the
manifest-existence check in `main`: the discovered sub-manifest files
and the root manifest contents (`none` when the file does not exist). -/
structure FileSystem where
  subManifests : List FoundFile
  rootManifest : Option (List Char)
deriving DecidableEq

/-- Embedding of `source_and_combine_requirements` (lines 55-68): sort
the discovered files by path (Python `sorted` is stable; insertion sort
with a total preorder is the same stable sort), then open the root
manifest for writing — creating or truncating it unconditionally — and
write the newline-joined concatenation of the files' contents. -/
def source_and_combine_requirements (fs : FileSystem) : FileSystem :=
  { fs with
    rootManifest :=
      some (List.intercalate ['\n']
        ((fs.subManifests.insertionSort foundFileLe).map Prod.snd)) }

/-- Embedding of the check in `main` (lines 236-240): the run raises
`FileNotFoundError` (the fatal missing-manifest path) exactly when the
root manifest does not exist after aggregation. -/
def mainMissingManifestFatal (fs : FileSystem) : Bool :=
  fs.rootManifest.isNone

/-- A manifest line that is not an unpinned dependency specifier, in the
classification the rewrite loop of `pin_dependencies` uses: blank after
stripping, a full-line comment, already containing `==`, or not matching
`PACKAGE_REGEX`. -/
def inertLine (l : List Char) : Prop :=
  pyStrip l = [] ∨ (pyStrip l).headD ' ' = '#' ∨ hasEqEq l = true ∨
    packageRegexMatch l = none

/-- Unfolding of `charListLt` on two nonempty lists, phrased through
`Char.toNat`. -/
theorem charListLt_cons_iff {x y : Char} {s t : List Char} :
    charListLt (x :: s) (y :: t) = true ↔
      x.toNat < y.toNat ∨ (x.toNat = y.toNat ∧ charListLt s t = true) := by
  simp only [charListLt]
  by_cases h1 : x.toNat < y.toNat
  · simp [h1]
  · by_cases h2 : y.toNat < x.toNat
    · rw [if_neg h1, if_pos h2]
      constructor
      · intro h; exact absurd h (by simp)
      · rintro (h | ⟨h, -⟩) <;> omega
    · rw [if_neg h1, if_neg h2]
      constructor
      · intro h; exact Or.inr ⟨by omega, h⟩
      · rintro (h | ⟨-, h⟩)
        · exact absurd h h1
        · exact h

/-- Transitivity of the code-point comparison. -/
theorem charListLt_trans {a b c : List Char} (h₁ : charListLt a b = true)
    (h₂ : charListLt b c = true) : charListLt a c = true := by
  induction a generalizing b c with
  | nil =>
    cases b with
    | nil => simp [charListLt] at h₁
    | cons y t =>
      cases c with
      | nil => simp [charListLt] at h₂
      | cons z u => simp [charListLt]
  | cons x s ih =>
    cases b with
    | nil => simp [charListLt] at h₁
    | cons y t =>
      cases c with
      | nil => simp [charListLt] at h₂
      | cons z u =>
        rw [charListLt_cons_iff] at h₁ h₂ ⊢
        rcases h₁ with h₁ | ⟨e₁, h₁⟩ <;> rcases h₂ with h₂ | ⟨e₂, h₂⟩
        · exact Or.inl (by omega)
        · exact Or.inl (by omega)
        · exact Or.inl (by omega)
        · exact Or.inr ⟨by omega, ih h₁ h₂⟩

/-- Two lists neither of which is below the other are equal. -/
theorem charListLt_connex {a b : List Char} (h₁ : charListLt a b = false)
    (h₂ : charListLt b a = false) : a = b := by
  induction a generalizing b with
  | nil =>
    cases b with
    | nil => rfl
    | cons y t => simp [charListLt] at h₁
  | cons x s ih =>
    cases b with
    | nil => simp [charListLt] at h₂
    | cons y t =>
      by_cases hxy : x.toNat < y.toNat
      · rw [show charListLt (x :: s) (y :: t) = true by
          rw [charListLt_cons_iff]; exact Or.inl hxy] at h₁
        exact absurd h₁ (by simp)
      · by_cases hyx : y.toNat < x.toNat
        · rw [show charListLt (y :: t) (x :: s) = true by
            rw [charListLt_cons_iff]; exact Or.inl hyx] at h₂
          exact absurd h₂ (by simp)
        · have hx : x = y := by
            have h := congrArg Char.ofNat (show x.toNat = y.toNat by omega)
            rwa [Char.ofNat_toNat, Char.ofNat_toNat] at h
          simp only [charListLt, if_neg hxy, if_neg hyx] at h₁ h₂
          rw [hx, ih h₁ h₂]

/-- Transitivity of the Python string comparison. -/
theorem strLt_trans {a b c : String} (h₁ : strLt a b = true)
    (h₂ : strLt b c = true) : strLt a c = true :=
  charListLt_trans h₁ h₂

/-- Strings neither of which is below the other are equal. -/
theorem strLt_connex {a b : String} (h₁ : strLt a b = false)
    (h₂ : strLt b a = false) : a = b :=
  String.ext (charListLt_connex h₁ h₂)

/-- Totality of the path comparison. -/
theorem pathLe_total (p q : List String) : pathLe p q = true ∨ pathLe q p = true := by
  induction p generalizing q with
  | nil => exact Or.inl rfl
  | cons a p ih =>
    cases q with
    | nil => exact Or.inr rfl
    | cons b q =>
      simp only [pathLe]
      by_cases h1 : strLt a b = true
      · simp [h1]
      · by_cases h2 : strLt b a = true
        · simp [h1, h2]
        · simp only [Bool.not_eq_true] at h1 h2
          simp only [h1, h2, Bool.false_eq_true, if_false]
          exact ih q

/-- Transitivity of the path comparison. -/
theorem pathLe_trans (p q r : List String) (h₁ : pathLe p q = true)
    (h₂ : pathLe q r = true) : pathLe p r = true := by
  induction p generalizing q r with
  | nil => rfl
  | cons a p ih =>
    cases q with
    | nil => simp [pathLe] at h₁
    | cons b q =>
      cases r with
      | nil => simp [pathLe] at h₂
      | cons c r =>
        simp only [pathLe] at h₁ h₂ ⊢
        by_cases hab : strLt a b = true
        · by_cases hbc : strLt b c = true
          · rw [if_pos (strLt_trans hab hbc)]
          · by_cases hcb : strLt c b = true
            · rw [if_neg hbc, if_pos hcb] at h₂
              exact absurd h₂ (by simp)
            · simp only [Bool.not_eq_true] at hbc hcb
              rw [strLt_connex hbc hcb] at hab
              rw [if_pos hab]
        · by_cases hba : strLt b a = true
          · rw [if_neg hab, if_pos hba] at h₁
            exact absurd h₁ (by simp)
          · simp only [Bool.not_eq_true] at hab hba
            have hq : a = b := strLt_connex hab hba
            subst hq
            rw [if_neg (by simp [hab]), if_neg (by simp [hba])] at h₁
            by_cases hbc : strLt a c = true
            · rw [if_pos hbc]
            · by_cases hcb : strLt c a = true
              · rw [if_neg hbc, if_pos hcb] at h₂
                exact absurd h₂ (by simp)
              · rw [if_neg hbc, if_neg hcb] at h₂ ⊢
                exact ih q r h₁ h₂

/-- Occurrence of `==` is preserved by appending on the right. -/
theorem hasEqEq_append {v : List Char} (w : List Char) (h : hasEqEq v = true) :
    hasEqEq (v ++ w) = true := by
  induction v with
  | nil => simp [hasEqEq] at h
  | cons a tl ih =>
    cases tl with
    | nil => simp [hasEqEq] at h
    | cons b tl' =>
      simp only [hasEqEq, Bool.or_eq_true] at h
      rcases h with h | h
      · simp [hasEqEq, h]
      · simp only [List.cons_append, hasEqEq, Bool.or_eq_true]
        exact Or.inr (ih h)

/-- A successful lookup returns a binding of the map. -/
theorem lookupPkg_mem (m : PkgMap) (k v : List Char)
    (h : lookupPkg m k = some v) : (k, v) ∈ m := by
  induction m with
  | nil => simp [lookupPkg] at h
  | cons kv tl ih =>
    obtain ⟨k₀, v₀⟩ := kv
    unfold lookupPkg at h
    by_cases hk : k₀ = k
    · rw [if_pos hk] at h
      obtain rfl : v₀ = v := by simpa using h
      subst hk
      exact List.mem_cons_self _ _
    · rw [if_neg hk] at h
      exact List.mem_cons_of_mem _ (ih h)

/-- Every value of the map built from `pip freeze` output contains `==`:
the dict comprehension keeps only lines whose stripped form contains the
exact-version marker. -/
theorem installedFromFreeze_vals (out : List Char) :
    ∀ kv ∈ installedFromFreeze out, hasEqEq kv.2 = true := by
  intro kv hkv
  unfold installedFromFreeze at hkv
  rw [List.mem_reverse, List.mem_filterMap] at hkv
  obtain ⟨l, -, hl⟩ := hkv
  dsimp only at hl
  split at hl
  · next hcond =>
    obtain rfl : ((beforeEqEq (pyStrip l)).map Char.toLower, pyStrip l) = kv := by
      simpa using hl
    exact (Bool.and_eq_true _ _ |>.mp hcond).1
  · simp at hl

/-- Name characters are not whitespace. -/
theorem isNameChar_not_ws (c : Char) (h : isNameChar c = true) :
    pyWhitespace c = false := by
  cases hw : pyWhitespace c with
  | false => rfl
  | true =>
    exfalso
    unfold pyWhitespace at hw
    simp only [Bool.or_eq_true, beq_iff_eq] at hw
    rcases hw with ((((hc | hc) | hc) | hc) | hc) | hc <;> subst hc <;>
      exact absurd h (by decide)

/-- Name characters are not the comment marker. -/
theorem isNameChar_ne_hash (c : Char) (h : isNameChar c = true) :
    (c == '#') = false := by
  cases hq : (c == '#') with
  | false => rfl
  | true =>
    have hc : c = '#' := by simpa using hq
    subst hc
    exact absurd h (by decide)

/-- Dropping a satisfied run from the front never crosses a final element
that fails the test. -/
theorem dropWhile_append_one {p : Char → Bool} (xs : List Char) (c : Char)
    (h : p c = false) : (xs ++ [c]).dropWhile p = xs.dropWhile p ++ [c] := by
  rw [List.dropWhile_append]
  split
  · next hem =>
    rw [List.isEmpty_iff] at hem
    rw [hem, List.dropWhile_cons, h]
    simp
  · rfl

/-- A line on which `PACKAGE_REGEX` matches strips to a nonempty string
headed by a name character. -/
theorem pyStrip_of_match (l g : List Char) (h : packageRegexMatch l = some g) :
    ∃ c t, pyStrip l = c :: t ∧ isNameChar c = true := by
  have hn : ¬((l.dropWhile pyWhitespace).takeWhile isNameChar = []) := by
    intro hemp
    unfold packageRegexMatch at h
    rw [if_pos hemp] at h
    exact absurd h (by simp)
  cases hr : l.dropWhile pyWhitespace with
  | nil => rw [hr] at hn; simp at hn
  | cons c t =>
    have hc : isNameChar c = true := by
      cases hcc : isNameChar c with
      | true => rfl
      | false =>
        rw [hr, List.takeWhile_cons, hcc] at hn
        simp at hn
    have hws : pyWhitespace c = false := isNameChar_not_ws c hc
    refine ⟨c, (t.reverse.dropWhile pyWhitespace).reverse, ?_, hc⟩
    unfold pyStrip
    rw [hr]
    rw [show (c :: t).reverse = t.reverse ++ [c] by simp]
    rw [dropWhile_append_one _ _ hws]
    simp

/-- The rewrite loop keeps a line verbatim in each of the four inert
cases: blank, full-line comment, containing `==`, or no pattern match. -/
theorem pinLine_keep (m : PkgMap) (l : List Char) (h : inertLine l) :
    pinLine m l = l := by
  unfold pinLine
  by_cases h1 : pyStrip l = []
  · rw [if_pos h1]
  · rw [if_neg h1]
    by_cases h2 : ((pyStrip l).headD ' ' == '#') = true
    · rw [if_pos h2]
    · rw [if_neg h2]
      cases hm : packageRegexMatch l with
      | none => rfl
      | some g =>
        rcases h with h | h | h | h
        · exact absurd h h1
        · exact absurd (by rw [h]; rfl) h2
        · simp only [h, if_true]
        · rw [h] at hm; exact absurd hm (by simp)

/-- On a matching line without `==`, the rewrite loop reduces to the
lookup of the normalized captured name. -/
theorem pinLine_of_match (m : PkgMap) (l g : List Char)
    (hmatch : packageRegexMatch l = some g) (hne : hasEqEq l = false) :
    pinLine m l =
      match lookupPkg m (normalizeName g) with
      | none => l
      | some v =>
        if l.contains '#' then
          v ++ ([' ', ' ', '#', ' '] ++ pyStrip (afterHash l) ++ ['\n'])
        else v ++ ['\n'] := by
  obtain ⟨c, t, hst, hc⟩ := pyStrip_of_match l g hmatch
  have h1 : ¬(pyStrip l = []) := by simp [hst]
  have h2 : ¬(((pyStrip l).headD ' ' == '#') = true) := by
    rw [hst]
    simp only [List.headD_cons]
    simp [isNameChar_ne_hash c hc]
  unfold pinLine
  rw [if_neg h1, if_neg h2, hmatch, hne]
  simp

/-- Rewriting a line twice is the same as rewriting it once, provided
every value of the installed map contains `==` (as every map built from
`pip freeze` output does). -/
theorem pinLine_idem (m : PkgMap) (hm : ∀ kv ∈ m, hasEqEq kv.2 = true)
    (l : List Char) : pinLine m (pinLine m l) = pinLine m l := by
  by_cases h1 : pyStrip l = []
  · rw [pinLine_keep m l (Or.inl h1), pinLine_keep m l (Or.inl h1)]
  · by_cases h2 : (pyStrip l).headD ' ' = '#'
    · rw [pinLine_keep m l (Or.inr (Or.inl h2)),
        pinLine_keep m l (Or.inr (Or.inl h2))]
    · cases hmm : packageRegexMatch l with
      | none =>
        rw [pinLine_keep m l (Or.inr (Or.inr (Or.inr hmm))),
          pinLine_keep m l (Or.inr (Or.inr (Or.inr hmm)))]
      | some g =>
        cases hne : hasEqEq l with
        | true =>
          rw [pinLine_keep m l (Or.inr (Or.inr (Or.inl hne))),
            pinLine_keep m l (Or.inr (Or.inr (Or.inl hne)))]
        | false =>
          have hb := pinLine_of_match m l g hmm hne
          cases hv : lookupPkg m (normalizeName g) with
          | none =>
            rw [hv] at hb
            simp only at hb
            rw [hb]
            exact hb
          | some v =>
            rw [hv] at hb
            simp only at hb
            have hveq : hasEqEq v = true :=
              hm (normalizeName g, v) (lookupPkg_mem m _ v hv)
            rw [hb]
            by_cases hhash : l.contains '#' = true
            · rw [if_pos hhash]
              exact pinLine_keep m _ (Or.inr (Or.inr (Or.inl
                (hasEqEq_append _ hveq))))
            · rw [if_neg hhash]
              exact pinLine_keep m _ (Or.inr (Or.inr (Or.inl
                (hasEqEq_append _ hveq))))

/-- Applying the rewrite loop to a whole manifest twice equals applying
it once, for maps whose values all contain `==`. -/
theorem pinLinesCore_idem (m : PkgMap) (hm : ∀ kv ∈ m, hasEqEq kv.2 = true)
    (lines : List (List Char)) :
    pinLinesCore m (pinLinesCore m lines) = pinLinesCore m lines := by
  unfold pinLinesCore
  rw [List.map_map]
  exact List.map_congr_left fun a _ => pinLine_idem m hm a

/-- The filtering loop of `check_for_upgrades` is the order-preserving
filter-map of row parsing followed by the manifest-membership test. -/
theorem targetedUpgradesLoop_eq_filterMap (reqs : List (List Char))
    (rows : List (List Char)) :
    targetedUpgradesLoop reqs rows =
      rows.filterMap fun row =>
        (parseOutdatedRow row).bind fun t =>
          if reqs.contains (t.1.map Char.toLower) then some t else none := by
  induction rows with
  | nil => rfl
  | cons row tl ih =>
    rw [List.filterMap_cons]
    cases hp : parseOutdatedRow row with
    | none => simp only [targetedUpgradesLoop, hp, Option.none_bind]; exact ih
    | some t =>
      obtain ⟨p, c, l⟩ := t
      by_cases hc : reqs.contains (p.map Char.toLower) = true
      · simp only [targetedUpgradesLoop, hp, Option.some_bind, hc, if_true]
        rw [ih]
      · simp only [targetedUpgradesLoop, hp, Option.some_bind, hc]
        simp only [Bool.false_eq_true, if_false]
        exact ih

/-- C1 (amended): the aggregation stage writes the root manifest equal to
the newline-joined concatenation of the discovered sub-manifests' contents
in lexicographically path-sorted order; when zero sub-manifest files are
discovered the written root manifest is the empty string, but the file
then exists (it is created by opening for writing), so the fatal
missing-manifest branch in `main` is not taken. -/
theorem aggregation_writes_sorted_concat (fs : FileSystem) :
    (∃ sortedFiles : List FoundFile,
      sortedFiles.Perm fs.subManifests ∧
      sortedFiles.Pairwise foundFileLe ∧
      (source_and_combine_requirements fs).rootManifest =
        some (List.intercalate ['\n'] (sortedFiles.map Prod.snd))) ∧
    (fs.subManifests = [] →
      (source_and_combine_requirements fs).rootManifest = some [] ∧
      mainMissingManifestFatal (source_and_combine_requirements fs) = false) := by
  haveI htotal : IsTotal FoundFile foundFileLe := ⟨fun a b => pathLe_total a.1 b.1⟩
  haveI htrans : IsTrans FoundFile foundFileLe :=
    ⟨fun a b c => pathLe_trans a.1 b.1 c.1⟩
  constructor
  · refine ⟨fs.subManifests.insertionSort foundFileLe,
      List.perm_insertionSort foundFileLe fs.subManifests, ?_, rfl⟩
    exact List.sorted_insertionSort foundFileLe fs.subManifests
  · intro h
    obtain ⟨subs, root⟩ := fs
    simp only at h
    subst h
    exact ⟨rfl, rfl⟩

/-- C1 (counterexample to the claim as stated): with zero discovered
sub-manifest files the aggregation output is empty, yet the run does not
take the fatal missing-manifest path — the root manifest file exists
after aggregation, so the `FileNotFoundError` in `main` is not raised. -/
theorem aggregation_empty_not_fatal :
    (source_and_combine_requirements ⟨[], none⟩).rootManifest = some [] ∧
    mainMissingManifestFatal (source_and_combine_requirements ⟨[], none⟩) = false :=
  ⟨rfl, rfl⟩

/-- C1 (witness): the amended theorem applied to a file system with no
discovered sub-manifests and a pre-existing root manifest. -/
theorem aggregation_writes_sorted_concat_witness :
    (source_and_combine_requirements ⟨[], some "old".data⟩).rootManifest = some [] ∧
    mainMissingManifestFatal
      (source_and_combine_requirements ⟨[], some "old".data⟩) = false :=
  (aggregation_writes_sorted_concat ⟨[], some "old".data⟩).2 rfl

/-- C2: the pinning rewrite preserves the number of lines, and every line
that is not an unpinned dependency specifier (blank, full-line comment,
containing `==`, or not matching the package-name pattern) appears in the
output byte-identical to the input line, at the same position. -/
theorem pin_rewrite_preserves_shape (installed : PkgMap)
    (lines : List (List Char)) :
    (pin_dependencies_rewrite installed lines).length = lines.length ∧
    ∀ i : Nat, ∀ l : List Char, lines[i]? = some l → inertLine l →
      (pin_dependencies_rewrite installed lines)[i]? = some l := by
  constructor
  · unfold pin_dependencies_rewrite pinLinesCore
    split <;> simp
  · intro i l hi hl
    unfold pin_dependencies_rewrite pinLinesCore
    split
    · rw [List.getElem?_map, hi]
      exact congrArg some (pinLine_keep installed l hl)
    · exact hi

/-- C2 (witness): a full-line comment is returned unchanged at its
position. -/
theorem pin_rewrite_preserves_shape_witness :
    (pin_dependencies_rewrite [("requests".data, "requests==2.31.0".data)]
      ["requests\n".data, "# comment\n".data])[1]? = some "# comment\n".data :=
  (pin_rewrite_preserves_shape [("requests".data, "requests==2.31.0".data)]
    ["requests\n".data, "# comment\n".data]).2 1 "# comment\n".data rfl
    (Or.inr (Or.inl (by decide)))

/-- C3: an unpinned line whose normalized matched name is an installed
key is replaced by the mapped `name==version` specifier, re-attaching the
stripped inline comment (the text after the first `#`) after two spaces,
`#` and a space, and terminating the line with a newline. -/
theorem pin_replaces_unpinned_installed (installed : PkgMap)
    (line g v : List Char)
    (hmatch : packageRegexMatch line = some g)
    (hne : hasEqEq line = false)
    (hfound : lookupPkg installed (normalizeName g) = some v) :
    pinLine installed line =
      if line.contains '#' then
        v ++ ([' ', ' ', '#', ' '] ++ pyStrip (afterHash line) ++ ['\n'])
      else v ++ ['\n'] := by
  rw [pinLine_of_match installed line g hmatch hne, hfound]

/-- C3 (witness, the claim's example): input line
`  requests  # pinned above` with installed map
`{"requests": "requests==2.31.0"}` yields the output line
`requests==2.31.0  # pinned above`. -/
theorem pin_replaces_unpinned_installed_witness :
    pinLine [("requests".data, "requests==2.31.0".data)]
      "  requests  # pinned above".data
      = "requests==2.31.0  # pinned above\n".data := by
  rw [pin_replaces_unpinned_installed [("requests".data, "requests==2.31.0".data)]
    "  requests  # pinned above".data "requests".data "requests==2.31.0".data
    (by decide) (by decide) (by decide)]
  decide

/-- C4: an unpinned line whose normalized matched name is absent from the
installed map is left unchanged in the output of the pinning stage. -/
theorem pin_keeps_unmatched_name (installed : PkgMap)
    (lines : List (List Char)) (i : Nat) (line g : List Char)
    (hi : lines[i]? = some line)
    (hmatch : packageRegexMatch line = some g)
    (hne : hasEqEq line = false)
    (hnone : lookupPkg installed (normalizeName g) = none) :
    (pin_dependencies_rewrite installed lines)[i]? = some line := by
  unfold pin_dependencies_rewrite pinLinesCore
  split
  · rw [List.getElem?_map, hi]
    exact congrArg some (by rw [pinLine_of_match installed line g hmatch hne, hnone])
  · exact hi

/-- C4 (witness): a VCS-style name absent from the installed map stays
untouched while its neighbour is pinned. -/
theorem pin_keeps_unmatched_name_witness :
    (pin_dependencies_rewrite [("requests".data, "requests==2.31.0".data)]
      ["requests\n".data, "urllib3\n".data])[1]? = some "urllib3\n".data :=
  pin_keeps_unmatched_name [("requests".data, "requests==2.31.0".data)]
    ["requests\n".data, "urllib3\n".data] 1 "urllib3\n".data "urllib3".data
    rfl (by decide) (by decide) (by decide)

/-- C5: the pinning stage is idempotent — for every manifest and a fixed
environment (hence fixed `pip freeze` output and fixed installed-package
map), running the stage on the output of a first run changes nothing. -/
theorem pin_run_idempotent (freezeStdout : List Char)
    (lines : List (List Char)) :
    pin_dependencies_run freezeStdout (pin_dependencies_run freezeStdout lines)
      = pin_dependencies_run freezeStdout lines := by
  unfold pin_dependencies_run pin_dependencies_rewrite
  by_cases h : needs_pinning lines = true
  · rw [if_pos h]
    by_cases h2 : needs_pinning (pinLinesCore (installedFromFreeze freezeStdout) lines) = true
    · rw [if_pos h2]
      exact pinLinesCore_idem _ (installedFromFreeze_vals freezeStdout) lines
    · rw [if_neg h2]
  · rw [if_neg h, if_neg h]

/-- C6: the upgrade checker drops the two header lines of the outdated
list, parses each remaining row by whitespace-splitting into exactly four
fields (skipping rows that do not), and keeps, in row order, exactly the
rows whose lowercased name is among the manifest package names. -/
theorem upgrades_targets_characterization (stdout : List Char)
    (reqLines : List (List Char)) :
    check_for_upgrades_targets stdout reqLines =
      ((pySplitOnNl (pyStrip stdout)).drop 2).filterMap fun row =>
        (parseOutdatedRow row).bind fun t =>
          if (requirementsPackages reqLines).contains (t.1.map Char.toLower) then
            some t
          else none := by
  unfold check_for_upgrades_targets
  by_cases h : (pySplitOnNl (pyStrip stdout)).length ≤ 2
  · rw [if_pos h, List.drop_eq_nil_of_le h, List.filterMap_nil]
  · rw [if_neg h, targetedUpgradesLoop_eq_filterMap]

/-- Definitional reduction of the upgrade-checker model when the manifest
is present and the outdated-list invocation succeeds. -/
theorem check_for_upgrades_model_ok (reqLines : List (List Char))
    (stdout : List Char) (input : Option (List Char)) :
    check_for_upgrades_model (some reqLines) (.ok stdout) input =
      if check_for_upgrades_targets stdout reqLines = [] then
        .ok ⟨false, []⟩
      else if answerFromInput input = ['y'] then
        .ok ⟨true, [(check_for_upgrades_targets stdout reqLines).map fun t => t.1]⟩
      else .ok ⟨true, []⟩ := rfl

/-- C7: when the candidate list is nonempty the checker reaches the
prompt; end-of-stream input defaults the answer to `n` and no upgrade is
invoked; a `y` answer (lowercased, stripped) causes exactly one batch
upgrade invocation whose arguments are exactly the candidate package
names as parsed from the outdated list; any other answer invokes none. -/
theorem upgrade_prompt_behavior (stdout : List Char)
    (reqLines : List (List Char)) (input : Option (List Char))
    (h : check_for_upgrades_targets stdout reqLines ≠ []) :
    (input = none →
      answerFromInput input = ['n'] ∧
      check_for_upgrades_model (some reqLines) (.ok stdout) input =
        .ok ⟨true, []⟩) ∧
    (answerFromInput input = ['y'] →
      check_for_upgrades_model (some reqLines) (.ok stdout) input =
        .ok ⟨true, [(check_for_upgrades_targets stdout reqLines).map fun t => t.1]⟩) ∧
    (answerFromInput input ≠ ['y'] →
      check_for_upgrades_model (some reqLines) (.ok stdout) input =
        .ok ⟨true, []⟩) := by
  refine ⟨?_, ?_, ?_⟩
  · rintro rfl
    refine ⟨rfl, ?_⟩
    rw [check_for_upgrades_model_ok, if_neg h,
      if_neg (show ¬(answerFromInput none = ['y']) by decide)]
  · intro hy
    rw [check_for_upgrades_model_ok, if_neg h, if_pos hy]
  · intro hy
    rw [check_for_upgrades_model_ok, if_neg h, if_neg hy]

/-- C7 (witness, the spec's example): outdated row
`Flask 2.0.1 2.3.2 wheel` with `flask` in the manifest and answer ` Y `
triggers exactly one upgrade invocation listing exactly `Flask`. -/
theorem upgrade_prompt_behavior_witness :
    check_for_upgrades_model (some ["flask\n".data])
      (.ok "Package Version Latest Type\n------- ------- ------ ----\nFlask 2.0.1 2.3.2 wheel".data)
      (some " Y ".data) = .ok ⟨true, [["Flask".data]]⟩ :=
  ((upgrade_prompt_behavior
    "Package Version Latest Type\n------- ------- ------ ----\nFlask 2.0.1 2.3.2 wheel".data
    ["flask\n".data] (some " Y ".data) (by decide)).2.1 (by decide)).trans (by rfl)

/-- C8: a missing root manifest makes the pinning stage and the
upgrade-checking stage return normally with no state modified and no
invocation made (recoverable, with a warning), while `run_command`
terminates the whole run with exit status 1 on a missing executable or a
non-zero subprocess exit. -/
theorem missing_manifest_recoverable_cmd_failures_fatal :
    (∀ freeze : CmdOutcome, pin_dependencies_model none freeze = .ok none) ∧
    (∀ (listOutdated : CmdOutcome) (input : Option (List Char)),
      check_for_upgrades_model none listOutdated input = .ok ⟨false, []⟩) ∧
    run_command_model .notFound = .error 1 ∧
    (∀ code : Int, run_command_model (.exitNonZero code) = .error 1) :=
  ⟨fun _ => rfl, fun _ _ => rfl, rfl, fun _ => rfl⟩

/-- C9: after the aggregation stage the root manifest always exists — the
file is created or truncated unconditionally by opening it for writing —
so the missing-manifest fatal branch in `main` is unreachable. -/
theorem aggregation_manifest_always_exists (fs : FileSystem) :
    ((source_and_combine_requirements fs).rootManifest).isSome = true ∧
    mainMissingManifestFatal (source_and_combine_requirements fs) = false :=
  ⟨rfl, rfl⟩

/-- C10: a line containing `==` anywhere — including only inside an
inline comment — is classified as pinned: it never counts as unpinned for
the `needs_pinning` scan and the rewrite loop leaves it unchanged, for
every installed-package map. -/
theorem eqeq_anywhere_means_pinned (installed : PkgMap) (line : List Char)
    (h : hasEqEq line = true) :
    pinLine installed line = line ∧
    ((packageRegexMatch line).isSome && !hasEqEq line) = false := by
  refine ⟨pinLine_keep installed line (Or.inr (Or.inr (Or.inl h))), ?_⟩
  rw [h]
  simp

/-- C10 (witness): the line `requests  # pin == later` is never rewritten
even though its dependency specifier carries no version constraint and
`requests` is installed. -/
theorem eqeq_anywhere_means_pinned_witness :
    pinLine [("requests".data, "requests==2.31.0".data)]
      "requests  # pin == later".data = "requests  # pin == later".data :=
  (eqeq_anywhere_means_pinned [("requests".data, "requests==2.31.0".data)]
    "requests  # pin == later".data (by decide)).1
